import Mathlib

/-!
Shallow embedding of the MS365-Calendar `ha-to-o365-sync` core
(`sync.py`, `ha_client.py`, `o365_client.py`) and proofs about it.

Python strings are modelled as `List Char`; Python `None` as `Option.none`;
Python dicts keyed by strings as insertion-ordered association lists.
-/

namespace CalSync

/-- Text (a Python `str`) modelled as a list of characters. -/
abbrev Str := List Char

/-- Python's substring test `pat in s`. -/
def containsSub (pat : Str) : Str → Bool
  | [] => pat.isEmpty
  | c :: rest => pat.isPrefixOf (c :: rest) || containsSub pat rest

/-- The ASCII whitespace characters stripped by Python's `str.strip()`. -/
def pyIsSpace (c : Char) : Bool :=
  c = ' ' || c = '\t' || c = '\n' || c = '\r' || c = '\x0b' || c = '\x0c'

/-- Truthiness of `s.strip()`: true iff some character of `s` is not whitespace. -/
def stripTruthy (s : Str) : Bool := s.any (fun c => ¬ pyIsSpace c)

/-- The opening of the uid marker: the literal `[HA_UID:`. -/
def markerHead : Str := "[HA_UID:".toList

/-- The full uid marker `f"[HA_UID:{uid}]"` of `_set_event_uid`. -/
def uidMarker (uid : Str) : Str := markerHead ++ uid ++ [']']

/-- `Office365Client._set_event_uid`: starting from `event.body or ""`,
append the uid marker (after a blank line when the description has visible
content) unless the marker is already present.  Returns the resulting body. -/
def setEventUid (body : Option Str) (uid : Str) : Str :=
  let currentDescription := body.getD []
  if containsSub (uidMarker uid) currentDescription then currentDescription
  else if stripTruthy currentDescription then
    currentDescription ++ ('\n' :: '\n' :: uidMarker uid)
  else uidMarker uid

/-- The characters of `s` strictly before its first `]`, or `none` when `s`
has no `]`.  Models the greedy `[^\]]+` followed by the literal `]`. -/
def takeBeforeBracket : Str → Option Str
  | [] => none
  | c :: rest => if c = ']' then some [] else (takeBeforeBracket rest).map (c :: ·)

/-- Model of `re.search(r'\[HA_UID:([^\]]+)\]', s)`: scan positions left to
right; at the first position where the literal `[HA_UID:` matches and a
nonempty run of non-`]` characters followed by `]` completes the pattern,
return the captured run. -/
def findMarker : Str → Option Str
  | [] => none
  | c :: rest =>
    if markerHead.isPrefixOf (c :: rest) then
      match takeBeforeBracket ((c :: rest).drop markerHead.length) with
      | some (d :: cap) => some (d :: cap)
      | _ => findMarker rest
    else findMarker rest

/-- `Office365Client._get_event_uid`: extract the uid from the body's marker;
fall back to the O365 `object_id` when the body is `None`, empty, or carries
no marker. -/
def getEventUid (body : Option Str) (objectId : Str) : Str :=
  match body with
  | none => objectId
  | some b =>
    if b.isEmpty then objectId
    else
      match findMarker b with
      | some uid => uid
      | none => objectId

/-! ### Datetime model (`ha_client.py` `_parse_datetime`) -/

/-- Python `tzinfo` values relevant to the client: a `zoneinfo.ZoneInfo`
instance, the fixed `datetime.timezone.utc`, or some other tzinfo
implementation (e.g. the fixed-offset objects produced by `dateutil`). -/
inductive TZInfo where
  | zoneInfo (name : String)
  | utc
  | other (tag : String)
deriving DecidableEq

/-- A Python `datetime`: an abstract payload standing for the stored
date/time fields, plus the optional `tzinfo`.  Field arithmetic is never
needed by the claims, so the payload stays opaque. -/
structure PyDateTime where
  payload : Nat
  tzinfo : Option TZInfo
deriving DecidableEq

/-- `dt.replace(tzinfo=tz)`: attach `tz`, keeping the stored fields. -/
def PyDateTime.replaceTz (d : PyDateTime) (tz : TZInfo) : PyDateTime :=
  { d with tzinfo := some tz }

/-- `dt.astimezone(tz)`: the same instant expressed in `tz`; the wall-clock
field shift is abstracted away in `payload`. -/
def PyDateTime.astimezone (d : PyDateTime) (tz : TZInfo) : PyDateTime :=
  { d with tzinfo := some tz }

/-- Whether a tzinfo value is a `ZoneInfo` instance
(`isinstance(dt.tzinfo, ZoneInfo)`). -/
def tzIsZoneInfo : TZInfo → Bool
  | .zoneInfo _ => true
  | _ => false

/-- The duck-typed timestamp value received from Home Assistant: a native
datetime, a dict with optional `dateTime` / `date` string entries (`none`
models an absent key; the HA API delivers string values), a bare string, or
missing (`None` / key absent). -/
inductive RawDT where
  | dt (d : PyDateTime)
  | dict (dateTime : Option String) (date : Option String)
  | str (s : String)
  | missing
deriving DecidableEq

/-- Python `a or b` on optional strings: the empty string is falsy. -/
def pyOr (a b : Option String) : Option String :=
  match a with
  | some s => if s.isEmpty then b else some s
  | none => b

/-- `dt_value.get("dateTime") or dt_value.get("date")` for a dict input, the
value itself for a string input, `None` otherwise (the datetime case returns
before this point in the source). -/
def rawStr : RawDT → Option String
  | .dict dateTime date => pyOr dateTime date
  | .str s => some s
  | .missing => none
  | .dt _ => none

/-- Truthiness of `dt_str` (`if not dt_str`). -/
def strTruthy : Option String → Bool
  | none => false
  | some s => !s.isEmpty

/-- External inputs of `_parse_datetime` kept abstract by the embedding: the
configured timezone name, `dateutil.parser.parse` (`none` models a raised
parse error, `some` the parsed datetime, which is offset-naive exactly when
the text carried no offset), and the clock reading behind `datetime.now`. -/
structure ParseCtx where
  timezone : String
  parseStr : String → Option PyDateTime
  nowPayload : Nat

/-- `datetime.now(tz)` for the context's clock reading. -/
def pyNow (ctx : ParseCtx) (tz : TZInfo) : PyDateTime :=
  { payload := ctx.nowPayload, tzinfo := some tz }

/-- The tail of `_parse_datetime` shared by both parsed and native datetimes:
attach the configured `ZoneInfo` when naive, convert to it when the tzinfo is
not a `ZoneInfo`, keep the value otherwise. -/
def fixTz (ctx : ParseCtx) (d : PyDateTime) : PyDateTime :=
  match d.tzinfo with
  | none => d.replaceTz (.zoneInfo ctx.timezone)
  | some tz => if tzIsZoneInfo tz then d else d.astimezone (.zoneInfo ctx.timezone)

/-- `HomeAssistantClient._parse_datetime`: native datetimes get their tzinfo
normalized; otherwise the string under the value is extracted, a falsy string
yields `datetime.now(timezone.utc)`, a parse failure also yields
`datetime.now(timezone.utc)`, and a parsed result gets its tzinfo
normalized. -/
def parseDatetime (ctx : ParseCtx) (v : RawDT) : PyDateTime :=
  match v with
  | .dt d => fixTz ctx d
  | v' =>
    let ds := rawStr v'
    if strTruthy ds = false then pyNow ctx .utc
    else
      match ctx.parseStr (ds.getD "") with
      | some parsed => fixTz ctx parsed
      | none => pyNow ctx .utc

/-! ### Home Assistant event normalization (`ha_client.py`) -/

/-- A raw Home Assistant calendar event payload (the JSON dict): each text
field may be absent; `start`/`end` hold the duck-typed timestamp value
(`RawDT.missing` when the key is absent). -/
structure RawEvent where
  uid : Option Str
  summary : Option Str
  description : Option Str
  location : Option Str
  start : RawDT
  endT : RawDT
deriving DecidableEq

/-- `HomeAssistantClient._is_all_day_event`: the start value is a dict with a
`date` key and no `dateTime` key; any other shape is not all-day. -/
def isAllDayEvent (e : RawEvent) : Bool :=
  match e.start with
  | .dict dateTime date => date.isSome && dateTime.isNone
  | _ => false

/-- The normalized Home Assistant event dict (`endT` models the `end` key;
`allDay` the `all_day` key). -/
structure HaEvent where
  uid : Str
  summary : Str
  description : Str
  location : Str
  start : PyDateTime
  endT : PyDateTime
  allDay : Bool
deriving DecidableEq

/-- `HomeAssistantClient._normalize_event`. -/
def normalizeEvent (ctx : ParseCtx) (e : RawEvent) : HaEvent :=
  { uid := e.uid.getD []
    summary := e.summary.getD []
    description := e.description.getD []
    location := e.location.getD []
    start := parseDatetime ctx e.start
    endT := parseDatetime ctx e.endT
    allDay := isAllDayEvent e }

/-- The normalization loop of `HomeAssistantClient.get_events` over the
decoded response list. -/
def normalizeEvents (ctx : ParseCtx) : List RawEvent → List HaEvent
  | [] => []
  | e :: rest => normalizeEvent ctx e :: normalizeEvents ctx rest

/-! ### Office 365 fetched events (`o365_client.py`) -/

/-- A fetched O365 event as exposed by the `O365` library object: `subject`
and `body` may be `None`, `location` holds the display name of a truthy
location dict (`none` when the location is absent or falsy). -/
structure O365Event where
  subject : Option Str
  body : Option Str
  objectId : Str
  location : Option Str
  start : Option PyDateTime
  endT : Option PyDateTime
  isAllDay : Bool
deriving DecidableEq

/-- The normalized O365 event dict built by
`Office365Client._normalize_event` (`id` is the O365 `object_id`). -/
structure OEventNorm where
  id : Str
  uid : Str
  summary : Str
  description : Str
  location : Str
  start : Option PyDateTime
  endT : Option PyDateTime
  allDay : Bool
deriving DecidableEq

/-- `Office365Client._normalize_event`. -/
def normalizeO365 (e : O365Event) : OEventNorm :=
  { id := e.objectId
    uid := getEventUid e.body e.objectId
    summary := e.subject.getD []
    description := e.body.getD []
    location := e.location.getD []
    start := e.start
    endT := e.endT
    allDay := e.isAllDay }

/-- A Python dict with string keys, modelled as an insertion-ordered
association list: assigning an existing key replaces the value in place,
assigning a new key appends. -/
abbrev PyDict (V : Type) := List (Str × V)

/-- Dict lookup `d[k]` / `d.get(k)`. -/
def dictGet {V : Type} : PyDict V → Str → Option V
  | [], _ => none
  | (k', v) :: rest, k => if k' = k then some v else dictGet rest k

/-- Dict assignment `d[k] = v`. -/
def dictSet {V : Type} : PyDict V → Str → V → PyDict V
  | [], k, v => [(k, v)]
  | (k', v') :: rest, k, v =>
    if k' = k then (k', v) :: rest else (k', v') :: dictSet rest k v

/-- The filter `if event.subject and any(event.subject.startswith(prefix)
for prefix in prefixes)` of `get_synced_events`. -/
def subjectMatches (subj : Option Str) (ps : List Str) : Bool :=
  match subj with
  | none => false
  | some s => !s.isEmpty && ps.any (fun p => p.isPrefixOf s)

/-- One iteration of the event loop of `Office365Client.get_synced_events`,
acting on the accumulated `synced_events` dict and the uids for which the
duplicate warning was logged.  An event whose subject does not match is
skipped; a falsy decoded uid is skipped; assigning a uid already present
first records a warning, then overwrites. -/
def syncedStep (ps : List Str) (acc : PyDict OEventNorm × List Str)
    (e : O365Event) : PyDict OEventNorm × List Str :=
  if subjectMatches e.subject ps then
    if (getEventUid e.body e.objectId).isEmpty then acc
    else
      (dictSet acc.1 (getEventUid e.body e.objectId) (normalizeO365 e),
        if (dictGet acc.1 (getEventUid e.body e.objectId)).isSome then
          acc.2 ++ [getEventUid e.body e.objectId]
        else acc.2)
  else acc

/-- `Office365Client.get_synced_events` over the fetched event list:
the uid-keyed dict of prefix-matching events, together with the duplicate
warnings emitted while building it. -/
def getSyncedEvents (events : List O365Event) (ps : List Str) :
    PyDict OEventNorm × List Str :=
  events.foldl (syncedStep ps) ([], [])

/-! ### The sync pass (`sync.py` `CalendarSync.sync`, lines 128-158) -/

/-- A Home Assistant event dict carrying the `calendar_prefix` key assigned
in the fetch loop of `CalendarSync.sync`. -/
structure TaggedHaEvent where
  ev : HaEvent
  calendarPrefix : Str
deriving DecidableEq

/-- `f"{calendar_prefix} {ha_event['summary']}"` written back into the
event's `summary` key. -/
def prefixedEvent (t : TaggedHaEvent) : HaEvent :=
  { t.ev with summary := t.calendarPrefix ++ ' ' :: t.ev.summary }

/-- `CalendarSync._event_needs_update`: update detection is disabled
outright in the source ("Temporarily disable updates"). -/
def eventNeedsUpdate (_haEvent : HaEvent) (_o365Event : OEventNorm) : Bool :=
  false

/-- The create/update loop over `ha_events.items()`: a uid present in the
O365 dict is updated when `_event_needs_update` says so (as the pair
`(o365_event["id"], new content)`), an absent uid is created (as the pair
`(uid, prefixed event)`), in iteration order. -/
def createUpdateLoop (o : PyDict OEventNorm) :
    List (Str × TaggedHaEvent) → List (Str × HaEvent) × List (Str × HaEvent)
  | [] => ([], [])
  | (uid, t) :: rest =>
    let pe := prefixedEvent t
    let tailres := createUpdateLoop o rest
    match dictGet o uid with
    | some oe =>
      if eventNeedsUpdate pe oe then (tailres.1, (oe.id, pe) :: tailres.2)
      else (tailres.1, tailres.2)
    | none => ((uid, pe) :: tailres.1, tailres.2)

/-- The deletion loop over `o365_events.items()`: every O365 id whose uid is
not a key of the HA dict. -/
def deleteLoop (ha : List (Str × TaggedHaEvent)) : PyDict OEventNorm → List Str
  | [] => []
  | (uid, oe) :: rest =>
    if (dictGet ha uid).isSome then deleteLoop ha rest
    else oe.id :: deleteLoop ha rest

/-- The ordered action lists produced by one pass of `CalendarSync.sync`:
creates as `(uid, event)` pairs, updates as `(o365 id, new content)` pairs,
deletes as O365 ids. -/
structure SyncActions where
  toCreate : List (Str × HaEvent)
  toUpdate : List (Str × HaEvent)
  toDelete : List Str
deriving DecidableEq

/-- The pure action computation of `CalendarSync.sync` (lines 128-158):
iterate the HA dict producing creates and updates, then, when
`delete_removed_events` is set, the deletion pass. -/
def syncActions (ha : List (Str × TaggedHaEvent)) (o : PyDict OEventNorm)
    (deleteRemoved : Bool) : SyncActions :=
  let cu := createUpdateLoop o ha
  { toCreate := cu.1
    toUpdate := cu.2
    toDelete := if deleteRemoved then deleteLoop ha o else [] }

/-! ### Concrete sample data used by witnesses and counterexamples -/

/-- A concrete parse context: configured zone `Europe/London`, a parser that
fails on every string, clock reading 0. -/
def sampleCtx : ParseCtx :=
  { timezone := "Europe/London", parseStr := fun _ => none, nowPayload := 0 }

/-- A concrete date-only raw event. -/
def sampleAllDayEvent : RawEvent :=
  { uid := some "a".toList
    summary := some "Standup".toList
    description := none
    location := none
    start := RawDT.dict none (some "2024-01-01")
    endT := RawDT.dict none (some "2024-01-02") }

/-- A raw payload carrying no `uid` key. -/
def sampleNoUidEvent : RawEvent :=
  { uid := none, summary := none, description := none, location := none,
    start := RawDT.missing, endT := RawDT.missing }

/-- A destination event unrelated to the sync: subject without any
configured prefix, no marker in the body. -/
def samplePrivateEvent : O365Event :=
  { subject := some "Private dinner".toList, body := none,
    objectId := "zzz".toList, location := none, start := none, endT := none,
    isAllDay := false }

/-- A mirrored destination event decoding to uid `a`. -/
def sampleDupE1 : O365Event :=
  { subject := some "[Ian] A".toList, body := some "[HA_UID:a]".toList,
    objectId := "o1".toList, location := none, start := none, endT := none,
    isAllDay := false }

/-- A second mirrored destination event decoding to the same uid `a`. -/
def sampleDupE2 : O365Event :=
  { subject := some "[Ian] A".toList, body := some "[HA_UID:a]".toList,
    objectId := "o2".toList, location := none, start := none, endT := none,
    isAllDay := false }

/-! ### Substring and marker lemmas -/

lemma prefix_of_append_cons {pat d t : Str} {c : Char} (hc : c ∉ pat)
    (h : pat <+: d ++ c :: t) : pat <+: d := by
  rcases le_or_lt pat.length d.length with hle | hlt
  · rw [List.prefix_iff_eq_take] at h
    rw [List.take_append_eq_append_take, Nat.sub_eq_zero_of_le hle, List.take_zero,
      List.append_nil] at h
    rw [h]
    exact List.take_prefix _ _
  · exfalso
    rw [List.prefix_iff_eq_take, List.take_append_eq_append_take] at h
    obtain ⟨m, hm⟩ : ∃ m, pat.length - d.length = m + 1 := ⟨pat.length - d.length - 1, by omega⟩
    rw [hm, List.take_succ_cons] at h
    exact hc (h ▸ List.mem_append_right _ (List.mem_cons_self _ _))

lemma containsSub_cons (pat : Str) (c : Char) (rest : Str) :
    containsSub pat (c :: rest) = (pat.isPrefixOf (c :: rest) || containsSub pat rest) := rfl

lemma containsSub_of_prefix {pat s : Str} (h : pat <+: s) : containsSub pat s = true := by
  cases s with
  | nil =>
    have hp : pat = [] := List.prefix_nil.mp h
    simp [hp, containsSub]
  | cons c rest => simp [containsSub, List.isPrefixOf_iff_prefix, h]

lemma containsSub_mono {pat₁ pat₂ s : Str} (hp : pat₁ <+: pat₂)
    (h : containsSub pat₂ s = true) : containsSub pat₁ s = true := by
  induction s with
  | nil =>
    simp only [containsSub, List.isEmpty_iff] at h ⊢
    rw [h] at hp
    exact List.prefix_nil.mp hp
  | cons c rest ih =>
    simp only [containsSub, Bool.or_eq_true, List.isPrefixOf_iff_prefix] at h ⊢
    rcases h with h | h
    · exact Or.inl (hp.trans h)
    · exact Or.inr (ih h)

lemma containsSub_append_self (pat x : Str) : containsSub pat (x ++ pat) = true := by
  induction x with
  | nil =>
    cases pat with
    | nil => simp [containsSub]
    | cons c rest => simp [containsSub, List.isPrefixOf_iff_prefix, List.prefix_refl]
  | cons c x' ih =>
    simp only [List.cons_append, containsSub, Bool.or_eq_true]
    exact Or.inr ih

lemma containsSub_false_of_disjoint {pat y : Str} (hpat : pat ≠ [])
    (hy : ∀ c ∈ y, c ∉ pat) : containsSub pat y = false := by
  induction y with
  | nil => simpa [containsSub, List.isEmpty_iff] using hpat
  | cons c rest ih =>
    have h1 : pat.isPrefixOf (c :: rest) = false := by
      rw [Bool.eq_false_iff]
      intro hb
      have hp := List.isPrefixOf_iff_prefix.mp hb
      cases pat with
      | nil => exact hpat rfl
      | cons p₀ pat' =>
        rw [List.cons_prefix_cons] at hp
        exact hy c (List.mem_cons_self c rest) (List.mem_cons.mpr (Or.inl hp.1.symm))
    have h2 : containsSub pat rest = false := ih (fun c' hc' => hy c' (List.mem_cons_of_mem _ hc'))
    simp [containsSub, h1, h2]

lemma containsSub_append_false {pat x y : Str} (hpat : pat ≠ [])
    (hx : containsSub pat x = false) (hy : ∀ c ∈ y, c ∉ pat) :
    containsSub pat (x ++ y) = false := by
  cases y with
  | nil => simpa using hx
  | cons c₀ y' =>
    induction x with
    | nil => exact containsSub_false_of_disjoint hpat hy
    | cons c x' ih =>
      rw [containsSub_cons] at hx
      obtain ⟨hx1, hx2⟩ := Bool.or_eq_false_iff.mp hx
      have h1 : pat.isPrefixOf (c :: x' ++ c₀ :: y') = false := by
        rw [Bool.eq_false_iff]
        intro hb
        have hp := List.isPrefixOf_iff_prefix.mp hb
        have hpp : pat <+: c :: x' :=
          prefix_of_append_cons (hy c₀ (List.mem_cons_self _ _)) (by simpa using hp)
        rw [List.isPrefixOf_iff_prefix.mpr hpp] at hx1
        exact Bool.true_eq_false.mp hx1
      have h2 := ih hx2
      simp only [List.cons_append, containsSub_cons, h2, Bool.or_false]
      simpa using h1

lemma takeBeforeBracket_append {u : Str} (s : Str) (hu : ']' ∉ u) :
    takeBeforeBracket (u ++ ']' :: s) = some u := by
  induction u with
  | nil => simp [takeBeforeBracket]
  | cons c u' ih =>
    have hc : ¬ (c = ']') := fun h => hu (List.mem_cons.mpr (Or.inl h.symm))
    simp [takeBeforeBracket, hc, ih (fun h => hu (List.mem_cons_of_mem _ h))]

lemma markerHead_ne_nil : markerHead ≠ [] := by decide

lemma findMarker_cons (c : Char) (rest : Str) :
    findMarker (c :: rest) =
      if markerHead.isPrefixOf (c :: rest) then
        match takeBeforeBracket ((c :: rest).drop markerHead.length) with
        | some (d :: cap) => some (d :: cap)
        | _ => findMarker rest
      else findMarker rest := rfl

lemma findMarker_cons_skip {c : Char} {rest : Str}
    (h : markerHead.isPrefixOf (c :: rest) = false) :
    findMarker (c :: rest) = findMarker rest := by
  rw [findMarker_cons, h]
  simp

lemma findMarker_at_head (u s : Str) (hu : u ≠ []) (hb : ']' ∉ u) :
    findMarker (markerHead ++ (u ++ ']' :: s)) = some u := by
  cases u with
  | nil => exact absurd rfl hu
  | cons d cap =>
    have h1 : markerHead ++ ((d :: cap) ++ ']' :: s) =
        '[' :: ("HA_UID:".toList ++ ((d :: cap) ++ ']' :: s)) := rfl
    have h2 : markerHead.isPrefixOf (markerHead ++ ((d :: cap) ++ ']' :: s)) = true :=
      List.isPrefixOf_iff_prefix.mpr (List.prefix_append _ _)
    have h3 : (markerHead ++ ((d :: cap) ++ ']' :: s)).drop markerHead.length =
        (d :: cap) ++ ']' :: s := List.drop_left _ _
    have h4 : takeBeforeBracket ((d :: cap) ++ ']' :: s) = some (d :: cap) :=
      takeBeforeBracket_append s hb
    rw [h1] at h2 h3 ⊢
    rw [findMarker_cons, h2, h3, h4]
    simp

lemma findMarker_clean (d u s : Str) (hd : containsSub markerHead d = false)
    (hu : u ≠ []) (hb : ']' ∉ u) :
    findMarker (d ++ (markerHead ++ (u ++ ']' :: s))) = some u := by
  induction d with
  | nil => simpa using findMarker_at_head u s hu hb
  | cons c d' ih =>
    rw [containsSub_cons] at hd
    obtain ⟨hd1, hd2⟩ := Bool.or_eq_false_iff.mp hd
    have hnp : markerHead.isPrefixOf (c :: (d' ++ (markerHead ++ (u ++ ']' :: s)))) = false := by
      rw [Bool.eq_false_iff]
      intro hbp
      have hp := List.isPrefixOf_iff_prefix.mp hbp
      have hmh : markerHead = '[' :: "HA_UID:".toList := rfl
      rw [hmh, List.cons_prefix_cons] at hp
      obtain ⟨hc, hp'⟩ := hp
      have hin : "HA_UID:".toList <+: d' := prefix_of_append_cons (by decide) hp'
      have hfull : markerHead <+: c :: d' := by
        rw [hmh, List.cons_prefix_cons]
        exact ⟨hc, hin⟩
      rw [List.isPrefixOf_iff_prefix.mpr hfull] at hd1
      exact Bool.true_eq_false.mp hd1
    rw [List.cons_append, findMarker_cons_skip hnp]
    exact ih hd2

lemma findMarker_eq_none {s : Str} (h : containsSub markerHead s = false) :
    findMarker s = none := by
  induction s with
  | nil => rfl
  | cons c rest ih =>
    rw [containsSub_cons] at h
    obtain ⟨h1, h2⟩ := Bool.or_eq_false_iff.mp h
    rw [findMarker_cons_skip h1]
    exact ih h2

lemma containsSub_occurrence (pat d y : Str) : containsSub pat (d ++ (pat ++ y)) = true := by
  induction d with
  | nil => simpa using containsSub_of_prefix (List.prefix_append pat y)
  | cons c d' ih =>
    simp only [List.cons_append, containsSub_cons, Bool.or_eq_true]
    exact Or.inr ih

lemma takeBeforeBracket_some {r : Str} : ∀ {cap : Str},
    takeBeforeBracket r = some cap → ∃ s, r = cap ++ ']' :: s ∧ ']' ∉ cap := by
  induction r with
  | nil => intro cap h; simp [takeBeforeBracket] at h
  | cons c r' ih =>
    intro cap h
    by_cases hc : c = ']'
    · rw [takeBeforeBracket, if_pos hc] at h
      obtain rfl : cap = [] := (Option.some_inj.mp h).symm
      exact ⟨r', by simp [hc], by simp⟩
    · rw [takeBeforeBracket, if_neg hc] at h
      obtain ⟨cap', hcap', hmap⟩ := Option.map_eq_some'.mp h
      obtain ⟨s, hrs, hnotin⟩ := ih hcap'
      refine ⟨s, ?_, ?_⟩
      · rw [← hmap, hrs]
        rfl
      · rw [← hmap]
        intro hmem
        rcases List.mem_cons.mp hmem with h2 | h2
        · exact hc h2.symm
        · exact hnotin h2

lemma findMarker_some_decomp {b : Str} : ∀ {cap : Str}, findMarker b = some cap →
    ∃ d s, b = d ++ (markerHead ++ (cap ++ ']' :: s)) ∧ cap ≠ [] ∧ ']' ∉ cap := by
  induction b with
  | nil => intro cap h; simp [findMarker] at h
  | cons c rest ih =>
    intro cap h
    rw [findMarker_cons] at h
    by_cases hp : markerHead.isPrefixOf (c :: rest) = true
    · rw [if_pos hp] at h
      obtain ⟨r, hr⟩ := List.isPrefixOf_iff_prefix.mp hp
      have hdrop : (c :: rest).drop markerHead.length = r := by
        rw [← hr]
        exact List.drop_left _ _
      rw [hdrop] at h
      cases htb : takeBeforeBracket r with
      | none =>
        rw [htb] at h
        obtain ⟨d, s, hb, hcap, hnotin⟩ := ih h
        exact ⟨c :: d, s, by rw [List.cons_append, hb], hcap, hnotin⟩
      | some cap' =>
        cases cap' with
        | nil =>
          rw [htb] at h
          obtain ⟨d, s, hb, hcap, hnotin⟩ := ih h
          exact ⟨c :: d, s, by rw [List.cons_append, hb], hcap, hnotin⟩
        | cons d₀ cap₀ =>
          rw [htb] at h
          obtain rfl : cap = d₀ :: cap₀ := (Option.some_inj.mp h).symm
          obtain ⟨s, hrs, hnotin⟩ := takeBeforeBracket_some htb
          refine ⟨[], s, ?_, by simp, hnotin⟩
          rw [List.nil_append, ← hr, hrs]
    · rw [if_neg hp] at h
      obtain ⟨d, s, hb, hcap, hnotin⟩ := ih h
      exact ⟨c :: d, s, by rw [List.cons_append, hb], hcap, hnotin⟩

lemma no_decomp_of_no_head {b : Str} (h : containsSub markerHead b = false) :
    ¬ ∃ d u s, b = d ++ (markerHead ++ (u ++ ']' :: s)) ∧ u ≠ [] ∧ ']' ∉ u := by
  rintro ⟨d, u, s, rfl, -, -⟩
  rw [containsSub_occurrence markerHead d (u ++ ']' :: s)] at h
  exact Bool.true_eq_false.mp h

lemma no_decomp_of_no_bracket {b : Str} (h : ']' ∉ b) :
    ¬ ∃ d u s, b = d ++ (markerHead ++ (u ++ ']' :: s)) ∧ u ≠ [] ∧ ']' ∉ u := by
  rintro ⟨d, u, s, rfl, -, -⟩
  exact h (by simp)

lemma getEventUid_of_findMarker {b : Str} (hb : b ≠ []) {u : Str}
    (h : findMarker b = some u) (oid : Str) : getEventUid (some b) oid = u := by
  simp [getEventUid, List.isEmpty_iff, hb, h]

lemma getEventUid_of_no_marker {b : Option Str}
    (h : containsSub markerHead (b.getD []) = false) (oid : Str) :
    getEventUid b oid = oid := by
  cases b with
  | none => rfl
  | some s =>
    have hn : findMarker s = none := findMarker_eq_none (by simpa using h)
    simp [getEventUid, hn, ite_self]

lemma setEventUid_of_contains {body : Option Str} {uid : Str}
    (h : containsSub (uidMarker uid) (body.getD []) = true) :
    setEventUid body uid = body.getD [] := by
  simp [setEventUid, h]

lemma marker_in_setEventUid (body : Option Str) (uid : Str) :
    containsSub (uidMarker uid) (setEventUid body uid) = true := by
  cases h : containsSub (uidMarker uid) (body.getD []) with
  | true => rw [setEventUid_of_contains h]; exact h
  | false =>
    cases h2 : stripTruthy (body.getD []) with
    | true =>
      have hr : setEventUid body uid = body.getD [] ++ ('\n' :: '\n' :: uidMarker uid) := by
        simp [setEventUid, h, h2]
      rw [hr]
      have hsplit : body.getD [] ++ ('\n' :: '\n' :: uidMarker uid) =
          (body.getD [] ++ ['\n', '\n']) ++ uidMarker uid := by simp
      rw [hsplit]
      exact containsSub_append_self _ _
    | false =>
      have hr : setEventUid body uid = uidMarker uid := by simp [setEventUid, h, h2]
      rw [hr]
      simpa using containsSub_append_self (uidMarker uid) []

lemma markerHead_prefix_uidMarker (uid : Str) : markerHead <+: uidMarker uid := by
  have : uidMarker uid = markerHead ++ (uid ++ [']']) := by
    simp [uidMarker, List.append_assoc]
  rw [this]
  exact List.prefix_append _ _

lemma uidMarker_ne_nil (uid : Str) : uidMarker uid ≠ [] := by
  intro h
  simp only [uidMarker] at h
  exact absurd (List.append_eq_nil.mp h).2 (by simp)

/-! ### Claims C2, C5, C6: the identity codec -/

/-- C2 counterexample: the claim quantifies over every initial description,
but with uid `b` (nonempty, free of the delimiter `]`) and the initial
description `[HA_UID:a]`, decoding the encoded description returns `a`, not
`b`: `re.search` finds the leftmost marker, which is the pre-existing one,
not the appended one. -/
theorem c2_counterexample :
    ("b".toList ≠ ([] : Str)) ∧ (']' ∉ "b".toList) ∧
      getEventUid (some (setEventUid (some "[HA_UID:a]".toList) "b".toList)) "oid".toList ≠
        "b".toList := by decide

/-- C2 (amended): for every non-empty uid that does not contain the closing
delimiter `]`, and every initial description that contains no occurrence of
the marker opening `[HA_UID:`, decoding the description produced by encoding
the uid returns exactly that uid. -/
theorem c2_roundtrip (uid desc oid : Str) (h1 : uid ≠ []) (h2 : ']' ∉ uid)
    (h3 : containsSub markerHead desc = false) :
    getEventUid (some (setEventUid (some desc) uid)) oid = uid := by
  have hm : containsSub (uidMarker uid) desc = false := by
    cases hcc : containsSub (uidMarker uid) desc with
    | false => rfl
    | true =>
      rw [containsSub_mono (markerHead_prefix_uidMarker uid) hcc] at h3
      exact absurd h3 (by simp)
  have hmark : uidMarker uid = markerHead ++ (uid ++ ']' :: []) := by
    simp [uidMarker, List.append_assoc]
  cases h4 : stripTruthy desc with
  | true =>
    have hr : setEventUid (some desc) uid = desc ++ ('\n' :: '\n' :: uidMarker uid) := by
      simp [setEventUid, hm, h4]
    have hsplit : desc ++ ('\n' :: '\n' :: uidMarker uid) =
        (desc ++ ['\n', '\n']) ++ (markerHead ++ (uid ++ ']' :: [])) := by
      rw [← hmark]; simp
    have hclean : containsSub markerHead (desc ++ ['\n', '\n']) = false :=
      containsSub_append_false markerHead_ne_nil h3 (by decide)
    have hfind : findMarker (desc ++ ('\n' :: '\n' :: uidMarker uid)) = some uid := by
      rw [hsplit]
      exact findMarker_clean _ uid [] hclean h1 h2
    have hne : desc ++ ('\n' :: '\n' :: uidMarker uid) ≠ [] :=
      List.append_ne_nil_of_right_ne_nil desc (by simp)
    rw [hr]
    exact getEventUid_of_findMarker hne hfind oid
  | false =>
    have hr : setEventUid (some desc) uid = uidMarker uid := by
      simp [setEventUid, hm, h4]
    have hfind : findMarker (uidMarker uid) = some uid := by
      rw [hmark]
      exact findMarker_at_head uid [] h1 h2
    rw [hr]
    exact getEventUid_of_findMarker (uidMarker_ne_nil uid) hfind oid

/-- C2 witness: the amended round trip at uid `b`, description `hello`. -/
theorem c2_witness :
    getEventUid (some (setEventUid (some "hello".toList) "b".toList)) "oid".toList =
      "b".toList :=
  c2_roundtrip "b".toList "hello".toList "oid".toList (by decide) (by decide) (by decide)

/-- C5: decoding an event's identity never throws (`getEventUid` is a total
function): a body containing a well-formed marker after marker-free text
yields the enclosed uid, and a body containing no well-formed marker at all
— including an absent (`None`) body, an empty body, and malformed bodies
such as an unclosed `[HA_UID:` fragment — falls back to the destination's
own `object_id`. -/
theorem c5_decode_fallback (body : Option Str) (objectId : Str) :
    ((¬ ∃ d u s, body.getD [] = d ++ (markerHead ++ (u ++ ']' :: s)) ∧
        u ≠ [] ∧ ']' ∉ u) →
      getEventUid body objectId = objectId) ∧
    (∀ d u s, body = some (d ++ (markerHead ++ (u ++ ']' :: s))) → u ≠ [] →
      ']' ∉ u → containsSub markerHead d = false →
      getEventUid body objectId = u) := by
  constructor
  · intro hno
    have hfm : findMarker (body.getD []) = none := by
      cases hfm2 : findMarker (body.getD []) with
      | none => rfl
      | some cap =>
        obtain ⟨d, s, hb, hcap, hnotin⟩ := findMarker_some_decomp hfm2
        exact absurd ⟨d, cap, s, hb, hcap, hnotin⟩ hno
    cases body with
    | none => rfl
    | some b =>
      simp only [Option.getD_some] at hfm
      simp [getEventUid, hfm, ite_self]
  · rintro d u s rfl hu hb hd
    have hne : d ++ (markerHead ++ (u ++ ']' :: s)) ≠ [] := by
      intro hcontra
      exact markerHead_ne_nil (List.append_eq_nil.mp (List.append_eq_nil.mp hcontra).2).1
    exact getEventUid_of_findMarker hne (findMarker_clean d u s hd hu hb) objectId

/-- C5 witness: fallback on a marker-free body, fallback on a malformed body
with an unclosed marker fragment, and extraction on a well-marked body, at
concrete inputs. -/
theorem c5_witness :
    getEventUid (some "no marker here".toList) "oid".toList = "oid".toList ∧
    getEventUid (some "bad [HA_UID: frag".toList) "oid".toList = "oid".toList ∧
    getEventUid (some ("hi ".toList ++ (markerHead ++ ("abc".toList ++ ']' :: []))))
        "oid".toList = "abc".toList :=
  ⟨(c5_decode_fallback (some "no marker here".toList) "oid".toList).1
      (no_decomp_of_no_head (by decide)),
   (c5_decode_fallback (some "bad [HA_UID: frag".toList) "oid".toList).1
      (no_decomp_of_no_bracket (by decide)),
   (c5_decode_fallback (some ("hi ".toList ++ (markerHead ++ ("abc".toList ++ ']' :: []))))
      "oid".toList).2 "hi ".toList "abc".toList [] rfl (by decide) (by decide) (by decide)⟩

/-- C6: encoding is idempotent: a description already containing the marker
for the uid is left unchanged, so encoding twice yields the same description
as encoding once. -/
theorem c6_encode_idempotent (body : Option Str) (uid : Str) :
    (containsSub (uidMarker uid) (body.getD []) = true →
      setEventUid body uid = body.getD []) ∧
    setEventUid (some (setEventUid body uid)) uid = setEventUid body uid := by
  refine ⟨fun h => setEventUid_of_contains h, ?_⟩
  exact setEventUid_of_contains (by simpa using marker_in_setEventUid body uid)

/-- C6 witness: idempotence at a concrete description and uid. -/
theorem c6_witness :
    setEventUid (some "[HA_UID:u]".toList) "u".toList = "[HA_UID:u]".toList ∧
    setEventUid (some (setEventUid (some "x".toList) "u".toList)) "u".toList =
      setEventUid (some "x".toList) "u".toList :=
  ⟨(c6_encode_idempotent (some "[HA_UID:u]".toList) "u".toList).1 (by decide),
   (c6_encode_idempotent (some "x".toList) "u".toList).2⟩

/-! ### Normalizer lemmas and claims C7-C10 -/

lemma normalizeEvents_eq_map (ctx : ParseCtx) (events : List RawEvent) :
    normalizeEvents ctx events = events.map (normalizeEvent ctx) := by
  induction events with
  | nil => rfl
  | cons e rest ih => simp [normalizeEvents, ih]

lemma fixTz_tzinfo_isSome (ctx : ParseCtx) (d : PyDateTime) :
    (fixTz ctx d).tzinfo.isSome = true := by
  cases hd : d.tzinfo with
  | none => simp [fixTz, hd, PyDateTime.replaceTz]
  | some tz =>
    by_cases htz : tzIsZoneInfo tz = true
    · simp [fixTz, hd, htz]
    · simp [fixTz, hd, htz, PyDateTime.astimezone]

lemma parseDatetime_nondt (ctx : ParseCtx) (v : RawDT) (hv : ∀ d, v ≠ RawDT.dt d) :
    (parseDatetime ctx v).tzinfo.isSome = true := by
  have hshape : parseDatetime ctx v =
      (if strTruthy (rawStr v) = false then pyNow ctx TZInfo.utc
       else
        match ctx.parseStr ((rawStr v).getD "") with
        | some parsed => fixTz ctx parsed
        | none => pyNow ctx TZInfo.utc) := by
    cases v with
    | dt d => exact absurd rfl (hv d)
    | dict a b => rfl
    | str s => rfl
    | missing => rfl
  rw [hshape]
  by_cases h : strTruthy (rawStr v) = false
  · simp [h, pyNow]
  · simp only [if_neg h]
    cases hp : ctx.parseStr ((rawStr v).getD "") with
    | none => simp [pyNow]
    | some parsed => exact fixTz_tzinfo_isSome ctx parsed

lemma parseDatetime_tzinfo_isSome (ctx : ParseCtx) (v : RawDT) :
    (parseDatetime ctx v).tzinfo.isSome = true := by
  cases v with
  | dt d => exact fixTz_tzinfo_isSome ctx d
  | dict a b => exact parseDatetime_nondt ctx _ (fun d h => by cases h)
  | str s => exact parseDatetime_nondt ctx _ (fun d h => by cases h)
  | missing => exact parseDatetime_nondt ctx _ (fun d h => by cases h)

/-- C7: a normalized event is marked all-day iff the raw start value is
date-only — a dict carrying a `date` entry and no `dateTime` entry —
independent of the shape of the raw end value. -/
theorem c7_all_day (ctx : ParseCtx) (e e' : RawEvent) (h : e'.start = e.start) :
    ((normalizeEvent ctx e).allDay = true ↔ ∃ d, e.start = RawDT.dict none (some d)) ∧
    (normalizeEvent ctx e').allDay = (normalizeEvent ctx e).allDay := by
  constructor
  · simp only [normalizeEvent, isAllDayEvent]
    cases hs : e.start with
    | dict dateTime date => cases dateTime <;> cases date <;> simp
    | dt d => simp
    | str s => simp
    | missing => simp
  · simp only [normalizeEvent, isAllDayEvent, h]

/-- C7 witness: the characterization at a concrete date-only event. -/
theorem c7_witness :
    (((normalizeEvent sampleCtx sampleAllDayEvent).allDay = true ↔
      ∃ d, sampleAllDayEvent.start = RawDT.dict none (some d)) ∧
    (normalizeEvent sampleCtx sampleAllDayEvent).allDay =
      (normalizeEvent sampleCtx sampleAllDayEvent).allDay) :=
  c7_all_day sampleCtx sampleAllDayEvent sampleAllDayEvent rfl

/-- C8: an unparseable raw timestamp value — any shape (dict or bare
string) whose extracted text is truthy but fails the external parser —
does not abort normalization: the parser substitutes the current instant
(in UTC) for that value, and the fetch normalizes events one by one (a
per-element map), so every other event of the batch is still normalized
and returned. -/
theorem c8_parse_fail_soft (ctx : ParseCtx) (v : RawDT) (events : List RawEvent)
    (h1 : strTruthy (rawStr v) = true)
    (h2 : ctx.parseStr ((rawStr v).getD "") = none) :
    parseDatetime ctx v = pyNow ctx TZInfo.utc ∧
    normalizeEvents ctx events = events.map (normalizeEvent ctx) ∧
    ∀ e ∈ events, normalizeEvent ctx e ∈ normalizeEvents ctx events := by
  refine ⟨?_, normalizeEvents_eq_map ctx events, ?_⟩
  · have hshape : parseDatetime ctx v =
        (if strTruthy (rawStr v) = false then pyNow ctx TZInfo.utc
         else
          match ctx.parseStr ((rawStr v).getD "") with
          | some parsed => fixTz ctx parsed
          | none => pyNow ctx TZInfo.utc) := by
      cases v with
      | dt d => simp [rawStr, strTruthy] at h1
      | dict a b => rfl
      | str s => rfl
      | missing => rfl
    rw [hshape, if_neg (by simp [h1]), h2]
  · intro e he
    rw [normalizeEvents_eq_map]
    exact List.mem_map_of_mem _ he

/-- C8 witness: a failing parse at the dict-shaped timestamp
`{"dateTime": "garbage"}`, with a one-event batch still normalized. -/
theorem c8_witness :
    parseDatetime sampleCtx (RawDT.dict (some "garbage") none) =
      pyNow sampleCtx TZInfo.utc ∧
    normalizeEvents sampleCtx [sampleAllDayEvent] =
      List.map (normalizeEvent sampleCtx) [sampleAllDayEvent] ∧
    ∀ e ∈ [sampleAllDayEvent],
      normalizeEvent sampleCtx e ∈ normalizeEvents sampleCtx [sampleAllDayEvent] :=
  c8_parse_fail_soft sampleCtx (RawDT.dict (some "garbage") none)
    [sampleAllDayEvent] rfl rfl

/-- C9 counterexample: `_normalize_event` defaults a missing `uid` key to
the empty string (`event.get("uid", "")`), so a payload without a uid
yields a normalized event whose uid is empty — the claimed non-emptiness
fails. -/
theorem c9_counterexample :
    (normalizeEvent sampleCtx sampleNoUidEvent).uid = ([] : Str) := rfl

/-- C9 (amended): normalization copies the raw `uid` verbatim, so when every
raw payload of a fetch carries a non-empty uid value and these values are
pairwise distinct, every normalized event of that fetch has a non-empty uid
and the normalized uids are pairwise distinct. -/
theorem c9_uid_invariant (ctx : ParseCtx) (events : List RawEvent)
    (h1 : ∀ e ∈ events, ∃ u, e.uid = some u ∧ u ≠ [])
    (h2 : events.Pairwise (fun a b => a.uid ≠ b.uid)) :
    (∀ ev ∈ normalizeEvents ctx events, ev.uid ≠ []) ∧
    (normalizeEvents ctx events).Pairwise (fun a b => a.uid ≠ b.uid) := by
  rw [normalizeEvents_eq_map]
  constructor
  · intro ev hev
    rw [List.mem_map] at hev
    obtain ⟨e, he, rfl⟩ := hev
    obtain ⟨u, hu, hne⟩ := h1 e he
    simp [normalizeEvent, hu, hne]
  · rw [List.pairwise_map]
    refine List.Pairwise.imp_of_mem ?_ h2
    intro a b ha hb hne
    obtain ⟨ua, hua, hnea⟩ := h1 a ha
    obtain ⟨ub, hub, hneb⟩ := h1 b hb
    simp only [normalizeEvent, hua, hub, Option.getD_some]
    intro hcontra
    exact hne (by rw [hua, hub, hcontra])

/-- C9 witness: the amended invariant on a one-element fetch. -/
theorem c9_witness :
    (∀ ev ∈ normalizeEvents sampleCtx [sampleAllDayEvent], ev.uid ≠ []) ∧
    (normalizeEvents sampleCtx [sampleAllDayEvent]).Pairwise
      (fun a b => a.uid ≠ b.uid) :=
  c9_uid_invariant sampleCtx [sampleAllDayEvent]
    (by
      intro e he
      rw [List.mem_singleton] at he
      subst he
      exact ⟨"a".toList, rfl, by decide⟩)
    (List.pairwise_singleton _ _)

/-- C10: the timestamp parser always returns an offset-aware datetime — the
tzinfo of its result is never absent — so both bounds of every normalized
source event carry an offset; and a missing timestamp value yields the
current instant in `timezone.utc`, not in the configured default zone. -/
theorem c10_always_aware (ctx : ParseCtx) (v : RawDT) (e : RawEvent) :
    (parseDatetime ctx v).tzinfo.isSome = true ∧
    parseDatetime ctx RawDT.missing = pyNow ctx TZInfo.utc ∧
    (normalizeEvent ctx e).start.tzinfo.isSome = true ∧
    (normalizeEvent ctx e).endT.tzinfo.isSome = true := by
  refine ⟨parseDatetime_tzinfo_isSome ctx v, rfl, ?_, ?_⟩
  · exact parseDatetime_tzinfo_isSome ctx e.start
  · exact parseDatetime_tzinfo_isSome ctx e.endT

/-! ### Dict and fold lemmas -/

lemma dictGet_set {V : Type} (d : PyDict V) (k u : Str) (v : V) :
    dictGet (dictSet d k v) u = if k = u then some v else dictGet d u := by
  induction d with
  | nil => simp [dictSet, dictGet]
  | cons p rest ih =>
    cases p with
    | mk k' v' =>
      by_cases hk : k' = k
      · subst hk
        by_cases hu : k' = u
        · simp [dictSet, dictGet, hu]
        · simp [dictSet, dictGet, hu]
      · by_cases hu : k' = u
        · subst hu
          have hku : ¬ (k = k') := fun h2 => hk h2.symm
          simp [dictSet, dictGet, hk, hku]
        · simp [dictSet, dictGet, hk, hu, ih]

lemma mem_dictSet {V : Type} {k : Str} {v : V} {kv : Str × V} :
    ∀ {d : PyDict V}, kv ∈ dictSet d k v → kv ∈ d ∨ kv = (k, v)
  | [], h => by simpa [dictSet] using h
  | (k', v') :: rest, h => by
    by_cases hk : k' = k
    · simp only [dictSet, if_pos hk] at h
      rcases List.mem_cons.mp h with h2 | h2
      · right
        rw [h2, hk]
      · left
        exact List.mem_cons_of_mem _ h2
    · simp only [dictSet, if_neg hk] at h
      rcases List.mem_cons.mp h with h2 | h2
      · left
        exact List.mem_cons.mpr (Or.inl h2)
      · rcases mem_dictSet h2 with h3 | h3
        · left
          exact List.mem_cons_of_mem _ h3
        · right
          exact h3

lemma syncedStep_preserves_isSome (ps : List Str) (acc : PyDict OEventNorm × List Str)
    (e : O365Event) (u : Str) (h : (dictGet acc.1 u).isSome = true) :
    (dictGet (syncedStep ps acc e).1 u).isSome = true := by
  by_cases hm : subjectMatches e.subject ps = true
  · by_cases hempty : (getEventUid e.body e.objectId).isEmpty = true
    · simpa [syncedStep, hm, hempty] using h
    · simp only [syncedStep, hm, if_true, hempty, if_false, Bool.false_eq_true]
      rw [dictGet_set]
      by_cases hequ : getEventUid e.body e.objectId = u
      · simp [hequ]
      · simpa [hequ] using h
  · simpa [syncedStep, hm] using h

lemma syncedFoldl_preserves_isSome (ps : List Str) (es : List O365Event)
    (acc : PyDict OEventNorm × List Str) (u : Str)
    (h : (dictGet acc.1 u).isSome = true) :
    (dictGet (es.foldl (syncedStep ps) acc).1 u).isSome = true := by
  induction es generalizing acc with
  | nil => exact h
  | cons e rest ih =>
    exact ih (syncedStep ps acc e) (syncedStep_preserves_isSome ps acc e u h)

lemma syncedStep_warn_mono (ps : List Str) (acc : PyDict OEventNorm × List Str)
    (e : O365Event) (u : Str) (h : u ∈ acc.2) : u ∈ (syncedStep ps acc e).2 := by
  by_cases hm : subjectMatches e.subject ps = true
  · by_cases hempty : (getEventUid e.body e.objectId).isEmpty = true
    · simpa [syncedStep, hm, hempty] using h
    · simp only [syncedStep, hm, if_true, hempty, if_false, Bool.false_eq_true]
      by_cases hdup : (dictGet acc.1 (getEventUid e.body e.objectId)).isSome = true
      · simp [hdup]
        exact Or.inl h
      · simpa [hdup] using h
  · simpa [syncedStep, hm] using h

lemma syncedFoldl_warn_mono (ps : List Str) (es : List O365Event)
    (acc : PyDict OEventNorm × List Str) (u : Str) (h : u ∈ acc.2) :
    u ∈ (es.foldl (syncedStep ps) acc).2 := by
  induction es generalizing acc with
  | nil => exact h
  | cons e rest ih =>
    exact ih (syncedStep ps acc e) (syncedStep_warn_mono ps acc e u h)

lemma syncedStep_get_of_ne (ps : List Str) (acc : PyDict OEventNorm × List Str)
    (e : O365Event) (u : Str)
    (h : subjectMatches e.subject ps = true → getEventUid e.body e.objectId ≠ u) :
    dictGet (syncedStep ps acc e).1 u = dictGet acc.1 u := by
  by_cases hm : subjectMatches e.subject ps = true
  · by_cases hempty : (getEventUid e.body e.objectId).isEmpty = true
    · simp [syncedStep, hm, hempty]
    · simp only [syncedStep, hm, if_true, hempty, if_false, Bool.false_eq_true]
      rw [dictGet_set, if_neg (h hm)]
  · simp [syncedStep, hm]

lemma syncedFoldl_get_of_ne (ps : List Str) (es : List O365Event)
    (acc : PyDict OEventNorm × List Str) (u : Str)
    (h : ∀ e ∈ es, subjectMatches e.subject ps = true →
      getEventUid e.body e.objectId ≠ u) :
    dictGet (es.foldl (syncedStep ps) acc).1 u = dictGet acc.1 u := by
  induction es generalizing acc with
  | nil => rfl
  | cons e rest ih =>
    rw [List.foldl_cons,
      ih (syncedStep ps acc e) (fun e' he' => h e' (List.mem_cons_of_mem _ he')),
      syncedStep_get_of_ne ps acc e u (h e (List.mem_cons_self _ _))]

lemma mem_syncedStep (ps : List Str) (acc : PyDict OEventNorm × List Str)
    (e : O365Event) {kv : Str × OEventNorm} (h : kv ∈ (syncedStep ps acc e).1) :
    kv ∈ acc.1 ∨ (subjectMatches e.subject ps = true ∧ kv.2 = normalizeO365 e) := by
  by_cases hm : subjectMatches e.subject ps = true
  · by_cases hempty : (getEventUid e.body e.objectId).isEmpty = true
    · exact Or.inl (by simpa [syncedStep, hm, hempty] using h)
    · simp only [syncedStep, hm, if_true, hempty, if_false, Bool.false_eq_true] at h
      rcases mem_dictSet h with h2 | h2
      · exact Or.inl h2
      · exact Or.inr ⟨hm, by rw [h2]⟩
  · exact Or.inl (by simpa [syncedStep, hm] using h)

lemma mem_syncedFoldl (ps : List Str) (es : List O365Event)
    (acc : PyDict OEventNorm × List Str) {kv : Str × OEventNorm}
    (h : kv ∈ (es.foldl (syncedStep ps) acc).1) :
    kv ∈ acc.1 ∨ ∃ e ∈ es, subjectMatches e.subject ps = true ∧
      kv.2 = normalizeO365 e := by
  induction es generalizing acc with
  | nil => exact Or.inl h
  | cons e rest ih =>
    rcases ih (syncedStep ps acc e) h with h2 | h2
    · rcases mem_syncedStep ps acc e h2 with h3 | h3
      · exact Or.inl h3
      · exact Or.inr ⟨e, List.mem_cons_self _ _, h3⟩
    · obtain ⟨e', he', hm', hv'⟩ := h2
      exact Or.inr ⟨e', List.mem_cons_of_mem _ he', hm', hv'⟩

lemma createUpdateLoop_updates_nil (o : PyDict OEventNorm)
    (ha : List (Str × TaggedHaEvent)) : (createUpdateLoop o ha).2 = [] := by
  induction ha with
  | nil => rfl
  | cons p rest ih =>
    cases p with
    | mk uid t =>
      simp only [createUpdateLoop]
      cases dictGet o uid with
      | none => simpa using ih
      | some oe => simpa [eventNeedsUpdate] using ih

lemma mem_deleteLoop {ha : List (Str × TaggedHaEvent)} {o : PyDict OEventNorm}
    {i : Str} (h : i ∈ deleteLoop ha o) : ∃ kv ∈ o, kv.2.id = i := by
  induction o with
  | nil => cases h
  | cons p rest ih =>
    cases p with
    | mk uid oe =>
      by_cases hk : (dictGet ha uid).isSome = true
      · simp only [deleteLoop, hk, if_true] at h
        obtain ⟨kv, hkv, hid⟩ := ih h
        exact ⟨kv, List.mem_cons_of_mem _ hkv, hid⟩
      · simp only [deleteLoop, hk, if_false, Bool.false_eq_true, List.mem_cons] at h
        rcases h with h | h
        · exact ⟨(uid, oe), List.mem_cons_self _ _, h.symm⟩
        · obtain ⟨kv, hkv, hid⟩ := ih h
          exact ⟨kv, List.mem_cons_of_mem _ hkv, hid⟩

/-! ### Claims C1, C3, C4: the reconciliation pass -/

/-- C1: against an empty mirrored destination map, one reconciliation pass
creates every source event, in dict order, with its summary prefixed by its
calendar tag, and produces no update actions and no delete actions,
whatever the deletion flag. -/
theorem c1_empty_dest (ha : List (Str × TaggedHaEvent)) (deleteRemoved : Bool) :
    syncActions ha [] deleteRemoved =
      { toCreate := ha.map (fun p => (p.1, prefixedEvent p.2))
        toUpdate := []
        toDelete := [] } := by
  have hcu : createUpdateLoop [] ha = (ha.map (fun p => (p.1, prefixedEvent p.2)), []) := by
    induction ha with
    | nil => rfl
    | cons p rest ih =>
      cases p with
      | mk uid t => simp [createUpdateLoop, dictGet, ih]
  have hdel : deleteLoop ha [] = [] := rfl
  simp [syncActions, hcu, hdel, ite_self]

/-- C3: a destination event whose subject does not start with any of the
configured prefixes never enters the mirrored map (no map entry carries its
O365 id, given that the fetched O365 ids identify their events), and no
sync pass ever updates or deletes that id, whatever the source set and the
deletion flag. -/
theorem c3_unrelated_untouched (events : List O365Event) (ps : List Str)
    (e : O365Event) (he : e ∈ events)
    (hm : subjectMatches e.subject ps = false)
    (huniq : ∀ e' ∈ events, e'.objectId = e.objectId → e' = e)
    (ha : List (Str × TaggedHaEvent)) (deleteRemoved : Bool) :
    (∀ kv ∈ (getSyncedEvents events ps).1, kv.2.id ≠ e.objectId) ∧
    (∀ upd ∈ (syncActions ha (getSyncedEvents events ps).1 deleteRemoved).toUpdate,
      upd.1 ≠ e.objectId) ∧
    (∀ did ∈ (syncActions ha (getSyncedEvents events ps).1 deleteRemoved).toDelete,
      did ≠ e.objectId) := by
  have hmap : ∀ kv ∈ (getSyncedEvents events ps).1, kv.2.id ≠ e.objectId := by
    intro kv hkv
    rcases mem_syncedFoldl ps events ([], []) hkv with h2 | h2
    · cases h2
    · obtain ⟨e', he', hm', hv'⟩ := h2
      rw [hv']
      intro hid
      have he'e : e' = e := huniq e' he' hid
      rw [he'e, hm] at hm'
      exact Bool.false_eq_true.mp hm'
  refine ⟨hmap, ?_, ?_⟩
  · intro upd hupd
    have := createUpdateLoop_updates_nil (getSyncedEvents events ps).1 ha
    simp only [syncActions] at hupd
    rw [this] at hupd
    cases hupd
  · intro did hdid
    simp only [syncActions] at hdid
    rcases deleteRemoved with _ | _
    · simp at hdid
    · simp only [if_true] at hdid
      obtain ⟨kv, hkv, hid⟩ := mem_deleteLoop hdid
      rw [← hid]
      exact hmap kv hkv

/-- C3 witness: an unrelated destination event with subject
`Private dinner` against prefix `[Ian]`, empty source set, deletion on. -/
theorem c3_witness :
    (∀ kv ∈ (getSyncedEvents [samplePrivateEvent] ["[Ian]".toList]).1,
      kv.2.id ≠ samplePrivateEvent.objectId) ∧
    (∀ upd ∈ (syncActions []
        (getSyncedEvents [samplePrivateEvent] ["[Ian]".toList]).1 true).toUpdate,
      upd.1 ≠ samplePrivateEvent.objectId) ∧
    (∀ did ∈ (syncActions []
        (getSyncedEvents [samplePrivateEvent] ["[Ian]".toList]).1 true).toDelete,
      did ≠ samplePrivateEvent.objectId) :=
  c3_unrelated_untouched [samplePrivateEvent] ["[Ian]".toList] samplePrivateEvent
    (List.mem_singleton.mpr rfl) (by decide)
    (fun e' h1 _ => List.mem_singleton.mp h1) [] true

/-- C4: when two prefix-matching destination events decode to the same uid
(and no later event yields that uid again), the mirrored map binds the uid
to the later of the two, the duplicate is recorded as a warning, and map
construction runs to completion instead of raising. -/
theorem c4_duplicate_overwrite (ps : List Str) (xs ys zs : List O365Event)
    (e1 e2 : O365Event) (u : Str)
    (h1 : subjectMatches e1.subject ps = true)
    (h2 : subjectMatches e2.subject ps = true)
    (hu1 : getEventUid e1.body e1.objectId = u)
    (hu2 : getEventUid e2.body e2.objectId = u)
    (hne : u ≠ [])
    (hz : ∀ e ∈ zs, subjectMatches e.subject ps = true →
      getEventUid e.body e.objectId ≠ u) :
    dictGet (getSyncedEvents (xs ++ e1 :: ys ++ e2 :: zs) ps).1 u =
      some (normalizeO365 e2) ∧
    u ∈ (getSyncedEvents (xs ++ e1 :: ys ++ e2 :: zs) ps).2 := by
  have huE : (u.isEmpty = true) → False := fun hcontra =>
    hne (List.isEmpty_iff.mp hcontra)
  have huE' : u.isEmpty = false := by
    cases hb : u.isEmpty with
    | false => rfl
    | true => exact absurd hb (fun hb2 => huE hb2)
  simp only [getSyncedEvents, List.foldl_append, List.foldl_cons]
  set acc0 := xs.foldl (syncedStep ps) ([], []) with hacc0
  have hstep1 : (syncedStep ps acc0 e1).1 = dictSet acc0.1 u (normalizeO365 e1) := by
    simp only [syncedStep, h1, if_true, hu1, huE', Bool.false_eq_true, if_false]
  have hsome1 : (dictGet (syncedStep ps acc0 e1).1 u).isSome = true := by
    rw [hstep1, dictGet_set, if_pos rfl]
    rfl
  set acc1 := syncedStep ps acc0 e1 with hacc1
  set acc2 := ys.foldl (syncedStep ps) acc1 with hacc2
  have hsome2 : (dictGet acc2.1 u).isSome = true :=
    syncedFoldl_preserves_isSome ps ys acc1 u hsome1
  have hstep2map : (syncedStep ps acc2 e2).1 = dictSet acc2.1 u (normalizeO365 e2) := by
    simp only [syncedStep, h2, if_true, hu2, huE', Bool.false_eq_true, if_false]
  have hstep2warn : u ∈ (syncedStep ps acc2 e2).2 := by
    simp only [syncedStep, h2, if_true, hu2, huE', Bool.false_eq_true, if_false, hsome2]
    exact List.mem_append_right _ (List.mem_singleton.mpr rfl)
  constructor
  · rw [syncedFoldl_get_of_ne ps zs (syncedStep ps acc2 e2) u hz, hstep2map,
      dictGet_set, if_pos rfl]
  · exact syncedFoldl_warn_mono ps zs (syncedStep ps acc2 e2) u hstep2warn

/-- C4 witness: two events with subject `[Ian] A` and body marker
`[HA_UID:a]` mirrored against prefix `[Ian]`: the map keeps the second
(O365 id `o2`) and the warning list names uid `a`. -/
theorem c4_witness :
    dictGet (getSyncedEvents ([] ++ sampleDupE1 :: [] ++ sampleDupE2 :: [])
        ["[Ian]".toList]).1 "a".toList = some (normalizeO365 sampleDupE2) ∧
    "a".toList ∈ (getSyncedEvents ([] ++ sampleDupE1 :: [] ++ sampleDupE2 :: [])
        ["[Ian]".toList]).2 :=
  c4_duplicate_overwrite ["[Ian]".toList] [] [] [] sampleDupE1 sampleDupE2
    "a".toList (by decide) (by decide) (by decide) (by decide) (by decide)
    (fun e h _ => absurd h (List.not_mem_nil e))

end CalSync
